import Mathlib

/-
Verification of the material scattering engine of the CUDA path tracer
(src/src/interactions.h).  Floating-point scalars are modelled as real
numbers; glm 3-component vectors as the structure V3; the thrust random
engine as a list of pre-drawn uniform reals, consumed front to back.
-/

set_option maxHeartbeats 1000000

open scoped Classical

/-- A glm::vec3, with real components. -/
@[ext]
structure V3 where
  x : ℝ
  y : ℝ
  z : ℝ

instance : Add V3 := ⟨fun a b => ⟨a.x + b.x, a.y + b.y, a.z + b.z⟩⟩

instance : Sub V3 := ⟨fun a b => ⟨a.x - b.x, a.y - b.y, a.z - b.z⟩⟩

instance : Neg V3 := ⟨fun a => ⟨-a.x, -a.y, -a.z⟩⟩

/-- Componentwise product, as glm vec3 * vec3. -/
instance : Mul V3 := ⟨fun a b => ⟨a.x * b.x, a.y * b.y, a.z * b.z⟩⟩

/-- Scalar * vector, as glm float * vec3. -/
instance : SMul ℝ V3 := ⟨fun r a => ⟨r * a.x, r * a.y, r * a.z⟩⟩

/-- glm::dot. -/
def V3.dot (a b : V3) : ℝ := a.x * b.x + a.y * b.y + a.z * b.z

/-- glm::cross. -/
def V3.cross (a b : V3) : V3 :=
  ⟨a.y * b.z - a.z * b.y, a.z * b.x - a.x * b.z, a.x * b.y - a.y * b.x⟩

/-- Squared length of a vector. -/
def V3.normSq (a : V3) : ℝ := a.x * a.x + a.y * a.y + a.z * a.z

/-- glm::length. -/
noncomputable def V3.norm (a : V3) : ℝ := Real.sqrt (V3.normSq a)

/-- glm::normalize: v divided by its length. -/
noncomputable def V3.normalize (a : V3) : V3 := (V3.norm a)⁻¹ • a

/-- glm::reflect(I, N) = I - 2 * dot(N, I) * N. -/
def V3.reflect (i n : V3) : V3 := i - (2 * V3.dot n i) • n

/-- glm::refract(I, N, eta): k = 1 - eta^2 * (1 - dot(N,I)^2); zero vector
when k < 0, else eta * I - (eta * dot(N, I) + sqrt k) * N. -/
noncomputable def V3.refract (i n : V3) (eta : ℝ) : V3 :=
  if 1 - eta * eta * (1 - V3.dot n i * V3.dot n i) < 0 then ⟨0, 0, 0⟩
  else eta • i - (eta * V3.dot n i + Real.sqrt (1 - eta * eta * (1 - V3.dot n i * V3.dot n i))) • n

/-- TWO_PI from the utilities header. -/
noncomputable def TWO_PI : ℝ := 2 * Real.pi

/-- SQRT_OF_ONE_THIRD from the utilities header. -/
noncomputable def SQRT_OF_ONE_THIRD : ℝ := Real.sqrt (1 / 3)

/-- One call of thrust uniform_real_distribution u01(rng): the next pre-drawn
uniform real from the stream, together with the advanced stream. -/
def draw (g : List ℝ) : ℝ × List ℝ := (g.headD 0, g.tail)

/-- interactions.h lines 24-31 / 57-66: a reference axis not parallel to the
normal, chosen against the SQRT_OF_ONE_THIRD thresholds. -/
noncomputable def directionNotNormal (normal : V3) : V3 :=
  if |normal.x| < SQRT_OF_ONE_THIRD then ⟨1, 0, 0⟩
  else if |normal.y| < SQRT_OF_ONE_THIRD then ⟨0, 1, 0⟩
  else ⟨0, 0, 1⟩

/-- interactions.h lines 33-41 / 68-76, shared by both samplers: build the
orthonormal basis from the normal and combine
up * normal + cos(around) * over * perp1 + sin(around) * over * perp2. -/
noncomputable def hemisphereFromBasis (normal : V3) (up over around : ℝ) : V3 :=
  up • normal
    + (Real.cos around * over) • V3.normalize (V3.cross normal (directionNotNormal normal))
    + (Real.sin around * over) •
        V3.normalize (V3.cross normal
          (V3.normalize (V3.cross normal (directionNotNormal normal))))

/-- interactions.h line 50: the tent remap of the first stratified coordinate,
s < 0.5 ? -0.5 + sqrt(2 s) : 1.5 - sqrt(2 - 2 s). -/
noncomputable def sRemap (s : ℝ) : ℝ :=
  if s < 0.5 then -0.5 + Real.sqrt (2 * s) else 1.5 - Real.sqrt (2 - 2 * s)

/-- interactions.h line 51 as written in the source: the remap of the second
coordinate t, whose branch condition tests s (not t):
s < 0.5 ? -0.5 + sqrt(2 t) : 1.5 - sqrt(2 - 2 t). -/
noncomputable def tRemapCode (s t : ℝ) : ℝ :=
  if s < 0.5 then -0.5 + Real.sqrt (2 * t) else 1.5 - Real.sqrt (2 - 2 * t)

/-- The remap of the second coordinate as the spec words it ("for each
coordinate independently"): the branch condition tests t itself. -/
noncomputable def tRemapSpec (t : ℝ) : ℝ :=
  if t < 0.5 then -0.5 + Real.sqrt (2 * t) else 1.5 - Real.sqrt (2 - 2 * t)

/-- The direction computed by shirleyRandomDirectionInHemisphere from the two
drawn uniforms s and t (interactions.h lines 50-76):
up = sqrt(t_p), over = sqrt(1 - up*up), around = s_p * TWO_PI. -/
noncomputable def shirleyDir (normal : V3) (s t : ℝ) : V3 :=
  hemisphereFromBasis normal (Real.sqrt (tRemapCode s t))
    (Real.sqrt (1 - Real.sqrt (tRemapCode s t) * Real.sqrt (tRemapCode s t)))
    (sRemap s * TWO_PI)

/-- The direction computed by calculateRandomDirectionInHemisphere from the two
drawn uniforms (interactions.h lines 15-41):
up = sqrt(u1), over = sqrt(1 - up*up), around = u2 * TWO_PI. -/
noncomputable def calcDir (normal : V3) (u1 u2 : ℝ) : V3 :=
  hemisphereFromBasis normal (Real.sqrt u1)
    (Real.sqrt (1 - Real.sqrt u1 * Real.sqrt u1)) (u2 * TWO_PI)

/-- interactions.h lines 10-42: the baseline cosine-weighted hemisphere
sampler; draws two uniforms from the stream. -/
noncomputable def calculateRandomDirectionInHemisphere (normal : V3) (rng : List ℝ) :
    V3 × List ℝ :=
  (calcDir normal (draw rng).1 (draw (draw rng).2).1, (draw (draw rng).2).2)

/-- interactions.h lines 44-77: the stratified hemisphere sampler; draws two
uniforms s then t from the stream. -/
noncomputable def shirleyRandomDirectionInHemisphere (normal : V3) (rng : List ℝ) :
    V3 × List ℝ :=
  (shirleyDir normal (draw rng).1 (draw (draw rng).2).1, (draw (draw rng).2).2)

/-- Modelled from the spec: Ray (origin, direction), whose defining header is
not among the provided sources. -/
structure Ray where
  origin : V3
  direction : V3

/-- Modelled from the spec: PathSegment owns a Ray, a cumulative color, and
bookkeeping (pixel index, remaining bounce count); its defining header is not
among the provided sources. -/
structure PathSegment where
  ray : Ray
  color : V3
  pixelIndex : ℤ
  remainingBounces : ℤ

/-- Modelled from the spec: the intersection record (ray parameter t, unit
outward surface normal, outside flag); its defining header is not among the
provided sources. -/
structure ShadeableIntersection where
  t : ℝ
  surfaceNormal : V3
  outside : Bool

/-- Modelled from the spec: the nested specular part of a Material. -/
structure Specular where
  color : V3

/-- Modelled from the spec: a Material record (diffuse color, specular color,
reflective/refractive flags, index of refraction); its defining header is not
among the provided sources. -/
structure Material where
  color : V3
  specular : Specular
  hasReflective : Bool
  hasRefractive : Bool
  indexOfRefraction : ℝ

/-- interactions.h line 114: the hit point
intersect = ray.origin + intersection.t * ray.direction. -/
noncomputable def hitPoint (ps : PathSegment) (isect : ShadeableIntersection) : V3 :=
  ps.ray.origin + isect.t • ps.ray.direction

/-- interactions.h line 118:
dir_spec = normalize(reflect(pathSegment.ray.direction, normal)). -/
noncomputable def dirSpec (ps : PathSegment) (isect : ShadeableIntersection) : V3 :=
  V3.normalize (V3.reflect ps.ray.direction isect.surfaceNormal)

/-- interactions.h lines 126-129: the refraction index ratio, flipped to its
reciprocal when the ray is not entering from outside. -/
noncomputable def refrEta (isect : ShadeableIntersection) (m : Material) : ℝ :=
  if isect.outside then m.indexOfRefraction else 1 / m.indexOfRefraction

/-- interactions.h line 124: cos_theta = dot(-pathSegment.ray.direction, normal). -/
noncomputable def cosThetaI (ps : PathSegment) (isect : ShadeableIntersection) : ℝ :=
  V3.dot (-ps.ray.direction) isect.surfaceNormal

/-- interactions.h line 125: sin_theta = sqrt(1 - cos_theta * cos_theta). -/
noncomputable def sinThetaI (ps : PathSegment) (isect : ShadeableIntersection) : ℝ :=
  Real.sqrt (1 - cosThetaI ps isect * cosThetaI ps isect)

/-- interactions.h line 130:
dir_refr = refract(pathSegment.ray.direction, intersection.surfaceNormal, ratio). -/
noncomputable def dirRefr (ps : PathSegment) (isect : ShadeableIntersection) (m : Material) : V3 :=
  V3.refract ps.ray.direction isect.surfaceNormal (refrEta isect m)

/-- interactions.h lines 131-132: Schlick reflectance
r0 = (1-eta)*(1-eta)/(1+eta)/(1+eta); r = r0 + (1-r0)*(1-cos_theta)^5. -/
noncomputable def schlickR (ps : PathSegment) (isect : ShadeableIntersection) (m : Material) : ℝ :=
  (1 - refrEta isect m) * (1 - refrEta isect m) / (1 + refrEta isect m) / (1 + refrEta isect m)
    + (1 - (1 - refrEta isect m) * (1 - refrEta isect m) / (1 + refrEta isect m) / (1 + refrEta isect m))
      * (1 - cosThetaI ps isect) ^ 5

/-- interactions.h lines 103-186, scatterRay.  The C++ mutates pathSegment and
takes intersection by mutable reference and the material by const reference;
the embedding returns the post-call values of all three, plus the advanced
random stream.  The body is a flattening of the source's control flow:
line 115 sets origin to intersect + 0.001 * normal; line 119 always runs the
stratified hemisphere sampler (two draws); line 121 draws choice; the
refractive branch (lines 123-153) returns early; otherwise spec/scale are
spec = (hasReflective && choice > 0.2), scale = hasReflective ? 0.8 : 0.0, and
lines 172-184 pick dir_spec/dir_diff and multiply the color by
specular.color * scale or m.color * (1 - scale). -/
noncomputable def scatterRay (ps : PathSegment) (isect : ShadeableIntersection)
    (m : Material) (rng : List ℝ) :
    PathSegment × ShadeableIntersection × Material × List ℝ :=
  let normal := isect.surfaceNormal
  let originOff : V3 := hitPoint ps isect + (0.001 : ℝ) • normal
  let hemi := shirleyRandomDirectionInHemisphere normal rng
  let choice := (draw hemi.2).1
  let rng2 := (draw hemi.2).2
  if m.hasRefractive = true then
    if refrEta isect m * sinThetaI ps isect > 1 then
      (⟨⟨originOff, dirSpec ps isect⟩, ps.color * m.specular.color,
        ps.pixelIndex, ps.remainingBounces⟩, isect, m, rng2)
    else if choice > schlickR ps isect m then
      (⟨⟨hitPoint ps isect - (0.001 : ℝ) • normal, dirRefr ps isect m⟩, ps.color * m.color,
        ps.pixelIndex, ps.remainingBounces⟩, isect, m, rng2)
    else
      (⟨⟨originOff, dirSpec ps isect⟩, ps.color * m.specular.color,
        ps.pixelIndex, ps.remainingBounces⟩, isect, m, rng2)
  else if m.hasReflective = true then
    if choice > (0.2 : ℝ) then
      (⟨⟨originOff, dirSpec ps isect⟩, ps.color * ((0.8 : ℝ) • m.specular.color),
        ps.pixelIndex, ps.remainingBounces⟩, isect, m, rng2)
    else
      (⟨⟨originOff, hemi.1⟩, ps.color * ((1 - (0.8 : ℝ)) • m.color),
        ps.pixelIndex, ps.remainingBounces⟩, isect, m, rng2)
  else
    (⟨⟨originOff, hemi.1⟩, ps.color * ((1 - (0 : ℝ)) • m.color),
      ps.pixelIndex, ps.remainingBounces⟩, isect, m, rng2)

/-- The probability that a uniform choice in [0,1) lands in the specular
branch of the reflective dispatch (choice > 0.2 at line 159), as the Lebesgue
measure of that sub-interval. -/
noncomputable def specularBranchProbability : ℝ :=
  (MeasureTheory.volume (Set.Ico (0 : ℝ) 1 ∩ {c : ℝ | c > 0.2})).toReal

/-- The probability that a uniform choice in [0,1) lands in the diffuse branch
of the reflective dispatch (choice <= 0.2), as the Lebesgue measure of that
sub-interval. -/
noncomputable def diffuseBranchProbability : ℝ :=
  (MeasureTheory.volume (Set.Ico (0 : ℝ) 1 ∩ {c : ℝ | ¬ c > 0.2})).toReal

@[simp]
theorem V3.add_x (a b : V3) : (a + b).x = a.x + b.x := rfl

@[simp]
theorem V3.add_y (a b : V3) : (a + b).y = a.y + b.y := rfl

@[simp]
theorem V3.add_z (a b : V3) : (a + b).z = a.z + b.z := rfl

@[simp]
theorem V3.sub_x (a b : V3) : (a - b).x = a.x - b.x := rfl

@[simp]
theorem V3.sub_y (a b : V3) : (a - b).y = a.y - b.y := rfl

@[simp]
theorem V3.sub_z (a b : V3) : (a - b).z = a.z - b.z := rfl

@[simp]
theorem V3.neg_x (a : V3) : (-a).x = -a.x := rfl

@[simp]
theorem V3.neg_y (a : V3) : (-a).y = -a.y := rfl

@[simp]
theorem V3.neg_z (a : V3) : (-a).z = -a.z := rfl

@[simp]
theorem V3.mul_x (a b : V3) : (a * b).x = a.x * b.x := rfl

@[simp]
theorem V3.mul_y (a b : V3) : (a * b).y = a.y * b.y := rfl

@[simp]
theorem V3.mul_z (a b : V3) : (a * b).z = a.z * b.z := rfl

@[simp]
theorem V3.smul_x (r : ℝ) (a : V3) : (r • a).x = r * a.x := rfl

@[simp]
theorem V3.smul_y (r : ℝ) (a : V3) : (r • a).y = r * a.y := rfl

@[simp]
theorem V3.smul_z (r : ℝ) (a : V3) : (r • a).z = r * a.z := rfl

theorem V3.dot_comm (a b : V3) : V3.dot a b = V3.dot b a := by
  unfold V3.dot; ring

theorem V3.dot_self (a : V3) : V3.dot a a = V3.normSq a := by
  unfold V3.dot V3.normSq; ring

theorem V3.dot_cross_left (a b : V3) : V3.dot (V3.cross a b) a = 0 := by
  unfold V3.dot V3.cross; ring

theorem V3.dot_cross_right (a b : V3) : V3.dot (V3.cross a b) b = 0 := by
  unfold V3.dot V3.cross; ring

theorem V3.normSq_nonneg (a : V3) : 0 ≤ V3.normSq a := by
  unfold V3.normSq
  nlinarith [mul_self_nonneg a.x, mul_self_nonneg a.y, mul_self_nonneg a.z]

/-- Lagrange identity for the cross product. -/
theorem V3.normSq_cross (a b : V3) :
    V3.normSq (V3.cross a b) = V3.normSq a * V3.normSq b - (V3.dot a b) ^ 2 := by
  unfold V3.normSq V3.cross V3.dot; ring

theorem V3.dot_smul_left (r : ℝ) (a b : V3) : V3.dot (r • a) b = r * V3.dot a b := by
  unfold V3.dot; simp; ring

theorem V3.normSq_smul (r : ℝ) (a : V3) : V3.normSq (r • a) = r ^ 2 * V3.normSq a := by
  unfold V3.normSq; simp; ring

theorem V3.dot_normalize_left (a b : V3) :
    V3.dot (V3.normalize a) b = (V3.norm a)⁻¹ * V3.dot a b := by
  unfold V3.normalize; exact V3.dot_smul_left _ _ _

theorem V3.normSq_normalize (a : V3) (h : V3.normSq a ≠ 0) :
    V3.normSq (V3.normalize a) = 1 := by
  have h0 : 0 ≤ V3.normSq a := V3.normSq_nonneg a
  have hs : Real.sqrt (V3.normSq a) ^ 2 = V3.normSq a := Real.sq_sqrt h0
  unfold V3.normalize V3.norm
  rw [V3.normSq_smul, inv_pow, hs]
  field_simp

/-- Expansion of the squared norm of a 3-term linear combination. -/
theorem V3.normSq_comb (a b c : ℝ) (u v w : V3) :
    V3.normSq (a • u + b • v + c • w)
      = a ^ 2 * V3.normSq u + b ^ 2 * V3.normSq v + c ^ 2 * V3.normSq w
        + 2 * a * b * V3.dot u v + 2 * a * c * V3.dot u w + 2 * b * c * V3.dot v w := by
  unfold V3.normSq V3.dot; simp; ring

theorem V3.dot_comb_left (a b c : ℝ) (u v w n : V3) :
    V3.dot (a • u + b • v + c • w) n
      = a * V3.dot u n + b * V3.dot v n + c * V3.dot w n := by
  unfold V3.dot; simp; ring

@[simp]
theorem draw_cons (a : ℝ) (l : List ℝ) : draw (a :: l) = (a, l) := rfl

theorem sqrt_third_lt_one : SQRT_OF_ONE_THIRD < 1 := by
  unfold SQRT_OF_ONE_THIRD
  rw [show (1 : ℝ) = Real.sqrt 1 by rw [Real.sqrt_one]]
  exact Real.sqrt_lt_sqrt (by norm_num) (by norm_num)

theorem sqrt_third_pos : 0 < SQRT_OF_ONE_THIRD := by
  unfold SQRT_OF_ONE_THIRD
  exact Real.sqrt_pos.mpr (by norm_num)

/-- The Peter Kutz axis trick: for a unit normal, the chosen reference axis is
never parallel to the normal, so the first cross product is nonzero. -/
theorem cross_directionNotNormal_ne (n : V3) (hn : V3.normSq n = 1) :
    V3.normSq (V3.cross n (directionNotNormal n)) ≠ 0 := by
  unfold directionNotNormal
  unfold V3.normSq at hn
  split_ifs with h1 h2
  · -- axis (1,0,0): cross = (0, n.z, -n.y); zero would force |n.x| = 1
    have hx2 : n.x * n.x < 1 / 3 := by
      have h := mul_self_lt_mul_self (abs_nonneg n.x) h1
      rwa [abs_mul_abs_self, show SQRT_OF_ONE_THIRD * SQRT_OF_ONE_THIRD = 1 / 3 from
        Real.mul_self_sqrt (by norm_num)] at h
    unfold V3.cross V3.normSq
    intro hc
    simp only at hc
    nlinarith [mul_self_nonneg n.y, mul_self_nonneg n.z]
  · -- axis (0,1,0): cross = (-n.z, 0, n.x); zero would force n.x = 0
    have hx : SQRT_OF_ONE_THIRD ≤ |n.x| := not_lt.mp h1
    have hxx : SQRT_OF_ONE_THIRD * SQRT_OF_ONE_THIRD ≤ n.x * n.x := by
      calc SQRT_OF_ONE_THIRD * SQRT_OF_ONE_THIRD ≤ |n.x| * |n.x| :=
        mul_le_mul hx hx (le_of_lt sqrt_third_pos) (abs_nonneg n.x)
      _ = n.x * n.x := abs_mul_abs_self n.x
    have h3 : (0 : ℝ) < 1 / 3 := by norm_num
    have hth : SQRT_OF_ONE_THIRD * SQRT_OF_ONE_THIRD = 1 / 3 :=
      Real.mul_self_sqrt (by norm_num)
    unfold V3.cross V3.normSq
    intro hc
    simp only at hc
    nlinarith [mul_self_nonneg n.z]
  · -- axis (0,0,1): cross = (n.y, -n.x, 0); zero would force n.x = 0
    have hx : SQRT_OF_ONE_THIRD ≤ |n.x| := not_lt.mp h1
    have hxx : SQRT_OF_ONE_THIRD * SQRT_OF_ONE_THIRD ≤ n.x * n.x := by
      calc SQRT_OF_ONE_THIRD * SQRT_OF_ONE_THIRD ≤ |n.x| * |n.x| :=
        mul_le_mul hx hx (le_of_lt sqrt_third_pos) (abs_nonneg n.x)
      _ = n.x * n.x := abs_mul_abs_self n.x
    have hth : SQRT_OF_ONE_THIRD * SQRT_OF_ONE_THIRD = 1 / 3 :=
      Real.mul_self_sqrt (by norm_num)
    unfold V3.cross V3.normSq
    intro hc
    simp only at hc
    nlinarith [mul_self_nonneg n.y]

/-- The combined direction dotted with the normal is exactly the up
coefficient, for a unit normal: both basis vectors are orthogonal to it. -/
theorem hemisphereFromBasis_dot (n : V3) (up over around : ℝ) (hn : V3.normSq n = 1) :
    V3.dot (hemisphereFromBasis n up over around) n = up := by
  unfold hemisphereFromBasis
  rw [V3.dot_comb_left, V3.dot_self, hn, V3.dot_normalize_left, V3.dot_normalize_left,
    V3.dot_cross_left, V3.dot_cross_left]
  ring

/-- Squared length of the combined direction, for a unit normal: the basis is
orthonormal, so it is up^2 + over^2. -/
theorem hemisphereFromBasis_normSq (n : V3) (up over around : ℝ) (hn : V3.normSq n = 1)
    (hc : V3.normSq (V3.cross n (directionNotNormal n)) ≠ 0) :
    V3.normSq (hemisphereFromBasis n up over around) = up ^ 2 + over ^ 2 := by
  unfold hemisphereFromBasis
  set e1 := V3.normalize (V3.cross n (directionNotNormal n)) with he1
  set e2 := V3.normalize (V3.cross n e1) with he2
  have h1 : V3.normSq e1 = 1 := V3.normSq_normalize _ hc
  have hne1 : V3.dot n e1 = 0 := by
    rw [V3.dot_comm, he1, V3.dot_normalize_left, V3.dot_cross_left, mul_zero]
  have hcross2 : V3.normSq (V3.cross n e1) = 1 := by
    rw [V3.normSq_cross, hn, h1, hne1]; ring
  have h2 : V3.normSq e2 = 1 := V3.normSq_normalize _ (by rw [hcross2]; norm_num)
  have hne2 : V3.dot n e2 = 0 := by
    rw [V3.dot_comm, he2, V3.dot_normalize_left, V3.dot_cross_left, mul_zero]
  have he12 : V3.dot e1 e2 = 0 := by
    rw [V3.dot_comm, he2, V3.dot_normalize_left, V3.dot_cross_right, mul_zero]
  rw [V3.normSq_comb, hn, h1, h2, hne1, hne2, he12]
  have hsc := Real.sin_sq_add_cos_sq around
  nlinarith [hsc]

/-- Whenever the coordinate a fed to up = sqrt(a) lies in [0,1], the combined
direction is unit, for a unit normal. -/
theorem sampler_norm_one (n : V3) (a around : ℝ) (hn : V3.normSq n = 1)
    (h0 : 0 ≤ a) (h1 : a ≤ 1) :
    V3.norm (hemisphereFromBasis n (Real.sqrt a)
      (Real.sqrt (1 - Real.sqrt a * Real.sqrt a)) around) = 1 := by
  have hc := cross_directionNotNormal_ne n hn
  have hup : Real.sqrt a * Real.sqrt a = a := Real.mul_self_sqrt h0
  have hupsq : Real.sqrt a ^ 2 = a := Real.sq_sqrt h0
  have hoversq : Real.sqrt (1 - Real.sqrt a * Real.sqrt a) ^ 2 = 1 - a := by
    rw [hup]; exact Real.sq_sqrt (by linarith)
  unfold V3.norm
  rw [hemisphereFromBasis_normSq n _ _ _ hn hc, hupsq, hoversq]
  norm_num [Real.sqrt_one]

/-- C2, counterexample.  The stratified sampler is fed the in-range draws
s = 1/2, t = 9/10 and the unit normal (0,0,1); the tent remap sends t to
t_p = 1.5 - sqrt(1/5), which exceeds 1, and the returned direction has
length sqrt(1.5 - sqrt(1/5)) > 1.02, far outside any 1e-5 tolerance of 1. -/
theorem shirley_not_unit_length :
    V3.normSq (⟨0, 0, 1⟩ : V3) = 1 ∧
    (1 : ℝ) / 2 ∈ Set.Ico (0 : ℝ) 1 ∧ (9 : ℝ) / 10 ∈ Set.Ico (0 : ℝ) 1 ∧
    1.02 < V3.norm (shirleyRandomDirectionInHemisphere ⟨0, 0, 1⟩ [1 / 2, 9 / 10]).1 ∧
    V3.norm (shirleyRandomDirectionInHemisphere ⟨0, 0, 1⟩ [1 / 2, 9 / 10]).1 ≠ 1 := by
  have hb : Real.sqrt (1 / 5) < 9 / 20 :=
    (Real.sqrt_lt' (by norm_num)).mpr (by norm_num)
  have hbpos : 0 ≤ Real.sqrt (1 / 5) := Real.sqrt_nonneg _
  have ht : tRemapCode (1 / 2) (9 / 10) = 3 / 2 - Real.sqrt (1 / 5) := by
    unfold tRemapCode
    rw [if_neg (by norm_num)]
    norm_num [show (2 : ℝ) - 2 * (9 / 10) = 1 / 5 by norm_num]
  have ht0 : 0 ≤ 3 / 2 - Real.sqrt (1 / 5) := by linarith
  have hs : sRemap (1 / 2) = 1 / 2 := by
    unfold sRemap
    rw [if_neg (by norm_num)]
    norm_num [show (2 : ℝ) - 2 * (1 / 2) = 1 by norm_num, Real.sqrt_one]
  have hover : Real.sqrt (1 - Real.sqrt (3 / 2 - Real.sqrt (1 / 5))
      * Real.sqrt (3 / 2 - Real.sqrt (1 / 5))) = 0 := by
    rw [Real.mul_self_sqrt ht0]
    exact Real.sqrt_eq_zero'.mpr (by linarith)
  have haround : (1 / 2 : ℝ) * TWO_PI = Real.pi := by unfold TWO_PI; ring
  have hv : (shirleyRandomDirectionInHemisphere ⟨0, 0, 1⟩ [1 / 2, 9 / 10]).1
      = ⟨0, 0, Real.sqrt (3 / 2 - Real.sqrt (1 / 5))⟩ := by
    show shirleyDir ⟨0, 0, 1⟩ (1 / 2) (9 / 10) = _
    unfold shirleyDir
    rw [ht, hs, hover, haround]
    unfold hemisphereFromBasis
    ext <;> simp [Real.cos_pi, Real.sin_pi]
  rw [hv]
  have hnrm : V3.norm (⟨0, 0, Real.sqrt (3 / 2 - Real.sqrt (1 / 5))⟩ : V3)
      = Real.sqrt (3 / 2 - Real.sqrt (1 / 5)) := by
    unfold V3.norm V3.normSq
    simp only
    rw [show (0 : ℝ) * 0 + 0 * 0 + Real.sqrt (3 / 2 - Real.sqrt (1 / 5))
        * Real.sqrt (3 / 2 - Real.sqrt (1 / 5))
        = Real.sqrt (3 / 2 - Real.sqrt (1 / 5)) * Real.sqrt (3 / 2 - Real.sqrt (1 / 5)) by ring]
    exact Real.sqrt_mul_self (Real.sqrt_nonneg _)
  rw [hnrm]
  have hgt : (1.02 : ℝ) < Real.sqrt (3 / 2 - Real.sqrt (1 / 5)) := by
    rw [Real.lt_sqrt (by norm_num)]
    nlinarith
  refine ⟨by unfold V3.normSq; norm_num, by norm_num, by norm_num, hgt, by linarith⟩

/-- C2 (amended): the returned direction is unit for every unit normal and all
draws whose up-coordinate stays in [0,1].  For the baseline sampler that is
every u1 in [0,1); for the stratified sampler it holds exactly when the tent
remap of the second draw, t_p = tRemapCode s t, lies in [0,1] (the
counterexample above shows it fails otherwise). -/
theorem hemisphere_sampler_unit_length :
    (∀ (n : V3) (u1 u2 : ℝ) (rest : List ℝ), V3.normSq n = 1 → 0 ≤ u1 → u1 ≤ 1 →
      V3.norm (calculateRandomDirectionInHemisphere n (u1 :: u2 :: rest)).1 = 1) ∧
    (∀ (n : V3) (s t : ℝ) (rest : List ℝ), V3.normSq n = 1 →
      0 ≤ tRemapCode s t → tRemapCode s t ≤ 1 →
      V3.norm (shirleyRandomDirectionInHemisphere n (s :: t :: rest)).1 = 1) := by
  constructor
  · intro n u1 u2 rest hn h0 h1
    show V3.norm (calcDir n u1 u2) = 1
    unfold calcDir
    exact sampler_norm_one n u1 _ hn h0 h1
  · intro n s t rest hn h0 h1
    show V3.norm (shirleyDir n s t) = 1
    unfold shirleyDir
    exact sampler_norm_one n _ _ hn h0 h1

/-- C2, witness: at the unit normal (0,0,1) the baseline sampler on draws
(1/4, 0) and the stratified sampler on draws (1/2, 1/2) both return unit
directions. -/
theorem hemisphere_sampler_unit_length_witness :
    V3.norm (calculateRandomDirectionInHemisphere ⟨0, 0, 1⟩ [1 / 4, 0]).1 = 1 ∧
    V3.norm (shirleyRandomDirectionInHemisphere ⟨0, 0, 1⟩ [1 / 2, 1 / 2]).1 = 1 := by
  have hrem : tRemapCode (1 / 2) (1 / 2) = 1 / 2 := by
    unfold tRemapCode
    rw [if_neg (by norm_num)]
    norm_num [show (2 : ℝ) - 2 * (1 / 2) = 1 by norm_num, Real.sqrt_one]
  exact ⟨hemisphere_sampler_unit_length.1 ⟨0, 0, 1⟩ (1 / 4) 0 []
      (by unfold V3.normSq; norm_num) (by norm_num) (by norm_num),
    hemisphere_sampler_unit_length.2 ⟨0, 0, 1⟩ (1 / 2) (1 / 2) []
      (by unfold V3.normSq; norm_num) (by rw [hrem]; norm_num) (by rw [hrem]; norm_num)⟩

/-- C3: for every unit normal and any random draws, the direction returned by
either hemisphere sampler has nonnegative dot product with the normal (the
dot product equals sqrt of the up-coordinate). -/
theorem hemisphere_sampler_dot_nonneg :
    (∀ (n : V3) (u1 u2 : ℝ) (rest : List ℝ), V3.normSq n = 1 →
      0 ≤ V3.dot (calculateRandomDirectionInHemisphere n (u1 :: u2 :: rest)).1 n) ∧
    (∀ (n : V3) (s t : ℝ) (rest : List ℝ), V3.normSq n = 1 →
      0 ≤ V3.dot (shirleyRandomDirectionInHemisphere n (s :: t :: rest)).1 n) := by
  constructor
  · intro n u1 u2 rest hn
    show 0 ≤ V3.dot (calcDir n u1 u2) n
    unfold calcDir
    rw [hemisphereFromBasis_dot n _ _ _ hn]
    exact Real.sqrt_nonneg _
  · intro n s t rest hn
    show 0 ≤ V3.dot (shirleyDir n s t) n
    unfold shirleyDir
    rw [hemisphereFromBasis_dot n _ _ _ hn]
    exact Real.sqrt_nonneg _

/-- C3, witness: concrete instances of the hemisphere-containment bound at the
unit normal (0,0,1). -/
theorem hemisphere_sampler_dot_nonneg_witness :
    0 ≤ V3.dot (calculateRandomDirectionInHemisphere ⟨0, 0, 1⟩ [1 / 4, 0]).1 ⟨0, 0, 1⟩ ∧
    0 ≤ V3.dot (shirleyRandomDirectionInHemisphere ⟨0, 0, 1⟩ [1 / 2, 9 / 10]).1 ⟨0, 0, 1⟩ :=
  ⟨hemisphere_sampler_dot_nonneg.1 ⟨0, 0, 1⟩ (1 / 4) 0 [] (by unfold V3.normSq; norm_num),
   hemisphere_sampler_dot_nonneg.2 ⟨0, 0, 1⟩ (1 / 2) (9 / 10) [] (by unfold V3.normSq; norm_num)⟩

/-- C1: at s = 3/5, t = 3/10 the source's second-coordinate remap (line 51,
whose branch condition reads s) yields 1.5 - sqrt(7/5), while the remap the
claim describes (branching on t alone) would yield -0.5 + sqrt(3/5); the two
differ, so the branch test does not depend only on t. -/
theorem tRemap_code_deviates_at_point :
    tRemapCode (3 / 5) (3 / 10) = 3 / 2 - Real.sqrt (7 / 5) ∧
    tRemapSpec (3 / 10) = -(1 / 2) + Real.sqrt (3 / 5) ∧
    tRemapCode (3 / 5) (3 / 10) ≠ tRemapSpec (3 / 10) := by
  have hcode : tRemapCode (3 / 5) (3 / 10) = 3 / 2 - Real.sqrt (7 / 5) := by
    unfold tRemapCode
    rw [if_neg (by norm_num)]
    norm_num [show (2 : ℝ) - 2 * (3 / 10) = 7 / 5 by norm_num]
  have hspec : tRemapSpec (3 / 10) = -(1 / 2) + Real.sqrt (3 / 5) := by
    unfold tRemapSpec
    rw [if_pos (by norm_num)]
    norm_num [show (2 : ℝ) * (3 / 10) = 3 / 5 by norm_num]
  refine ⟨hcode, hspec, ?_⟩
  rw [hcode, hspec]
  have h1 : Real.sqrt (7 / 5) < 6 / 5 := (Real.sqrt_lt' (by norm_num)).mpr (by norm_num)
  have h2 : Real.sqrt (3 / 5) < 4 / 5 := (Real.sqrt_lt' (by norm_num)).mpr (by norm_num)
  have h3 : (0 : ℝ) ≤ Real.sqrt (7 / 5) := Real.sqrt_nonneg _
  have h4 : (11 : ℝ) / 10 < Real.sqrt (7 / 5) := by
    rw [Real.lt_sqrt (by norm_num)]; norm_num
  have h5 : (7 : ℝ) / 10 < Real.sqrt (3 / 5) := by
    rw [Real.lt_sqrt (by norm_num)]; norm_num
  intro h
  nlinarith

/-- C4: for a refractive material under total internal reflection
(eta * sinThetaI > 1, with eta the outside-flipped ratio), scatterRay mirror
reflects, multiplies the color by material.specular.color, and the drawn
choice value never enters the result. -/
theorem scatterRay_total_internal_reflection
    (ps : PathSegment) (isect : ShadeableIntersection) (m : Material)
    (u v choice : ℝ) (rest : List ℝ)
    (hrefr : m.hasRefractive = true)
    (hc0 : 0 ≤ choice) (hc1 : choice < 1)
    (htir : refrEta isect m * sinThetaI ps isect > 1) :
    scatterRay ps isect m (u :: v :: choice :: rest)
      = (⟨⟨hitPoint ps isect + (0.001 : ℝ) • isect.surfaceNormal, dirSpec ps isect⟩,
          ps.color * m.specular.color, ps.pixelIndex, ps.remainingBounces⟩,
         isect, m, rest) := by
  simp [scatterRay, shirleyRandomDirectionInHemisphere, hrefr, htir]

/-- C4, witness: a ray grazing along the surface from inside a medium with
index 1/2 (eta = 2, sinThetaI = 1) always reflects; with choice = 1/3 the
color picks up specular.color = (2,3,4). -/
theorem scatterRay_total_internal_reflection_witness :
    (scatterRay ⟨⟨⟨0, 0, 5⟩, ⟨-1, 0, 0⟩⟩, ⟨1, 1, 1⟩, 7, 3⟩ ⟨5, ⟨0, 0, 1⟩, false⟩
        ⟨⟨1, 0, 0⟩, ⟨⟨2, 3, 4⟩⟩, false, true, 1 / 2⟩ [0, 0, 1 / 3]).1.color
      = V3.mk 1 1 1 * V3.mk 2 3 4 := by
  have h := scatterRay_total_internal_reflection
    ⟨⟨⟨0, 0, 5⟩, ⟨-1, 0, 0⟩⟩, ⟨1, 1, 1⟩, 7, 3⟩ ⟨5, ⟨0, 0, 1⟩, false⟩
    ⟨⟨1, 0, 0⟩, ⟨⟨2, 3, 4⟩⟩, false, true, 1 / 2⟩ 0 0 (1 / 3) [] rfl
    (by norm_num) (by norm_num)
    (by norm_num [refrEta, sinThetaI, cosThetaI, V3.dot, Real.sqrt_one])
  rw [h]

/-- C5: for a refractive material not under total internal reflection, eta is
the outside-flipped index, the Schlick reflectance has the claimed closed
form, choice > r refracts (color *= material.color, origin pushed along
-normal), choice <= r reflects (color *= specular.color, origin stays along
+normal), and the result never reaches the diffuse/specular blending: it is
insensitive to the hasReflective flag. -/
theorem scatterRay_refractive_dispatch
    (ps : PathSegment) (isect : ShadeableIntersection) (m : Material)
    (u v choice : ℝ) (rest : List ℝ)
    (hrefr : m.hasRefractive = true)
    (hnotir : ¬ refrEta isect m * sinThetaI ps isect > 1) :
    refrEta isect m
        = (if isect.outside = true then m.indexOfRefraction else 1 / m.indexOfRefraction) ∧
    schlickR ps isect m
        = ((1 - refrEta isect m) / (1 + refrEta isect m)) ^ 2
          + (1 - ((1 - refrEta isect m) / (1 + refrEta isect m)) ^ 2)
            * (1 - cosThetaI ps isect) ^ 5 ∧
    (choice > schlickR ps isect m →
      scatterRay ps isect m (u :: v :: choice :: rest)
        = (⟨⟨hitPoint ps isect - (0.001 : ℝ) • isect.surfaceNormal, dirRefr ps isect m⟩,
            ps.color * m.color, ps.pixelIndex, ps.remainingBounces⟩, isect, m, rest)) ∧
    (¬ choice > schlickR ps isect m →
      scatterRay ps isect m (u :: v :: choice :: rest)
        = (⟨⟨hitPoint ps isect + (0.001 : ℝ) • isect.surfaceNormal, dirSpec ps isect⟩,
            ps.color * m.specular.color, ps.pixelIndex, ps.remainingBounces⟩, isect, m, rest)) ∧
    (∀ b : Bool,
      (scatterRay ps isect ⟨m.color, m.specular, b, m.hasRefractive, m.indexOfRefraction⟩
          (u :: v :: choice :: rest)).1
        = (scatterRay ps isect m (u :: v :: choice :: rest)).1) := by
  refine ⟨rfl, by unfold schlickR; ring, ?_, ?_, ?_⟩
  · intro h
    simp [scatterRay, shirleyRandomDirectionInHemisphere, hrefr, hnotir, h]
  · intro h
    simp [scatterRay, shirleyRandomDirectionInHemisphere, hrefr, hnotir, h]
  · intro b
    have e1 : refrEta isect ⟨m.color, m.specular, b, true, m.indexOfRefraction⟩
        = refrEta isect m := rfl
    have e2 : schlickR ps isect ⟨m.color, m.specular, b, true, m.indexOfRefraction⟩
        = schlickR ps isect m := rfl
    have e3 : dirRefr ps isect ⟨m.color, m.specular, b, true, m.indexOfRefraction⟩
        = dirRefr ps isect m := rfl
    by_cases hch : choice > schlickR ps isect m
    · simp [scatterRay, shirleyRandomDirectionInHemisphere, hrefr, hnotir, e1, e2, e3, hch]
    · simp [scatterRay, shirleyRandomDirectionInHemisphere, hrefr, hnotir, e1, e2, e3, hch]

/-- C5, witness: a ray entering glass (ior 3/2) at normal incidence with
choice = 1/2 > r = 1/25 refracts straight through: direction (0,0,-1), origin
pushed to the transmitted side, color multiplied by material.color. -/
theorem scatterRay_refractive_dispatch_witness :
    (scatterRay ⟨⟨⟨0, 0, 2⟩, ⟨0, 0, -1⟩⟩, ⟨1, 1, 1⟩, 9, 4⟩ ⟨1, ⟨0, 0, 1⟩, true⟩
        ⟨⟨1 / 2, 1 / 3, 1 / 4⟩, ⟨⟨5, 6, 7⟩⟩, false, true, 3 / 2⟩ [0, 0, 1 / 2]).1.ray.direction
      = ⟨0, 0, -1⟩ ∧
    (scatterRay ⟨⟨⟨0, 0, 2⟩, ⟨0, 0, -1⟩⟩, ⟨1, 1, 1⟩, 9, 4⟩ ⟨1, ⟨0, 0, 1⟩, true⟩
        ⟨⟨1 / 2, 1 / 3, 1 / 4⟩, ⟨⟨5, 6, 7⟩⟩, false, true, 3 / 2⟩ [0, 0, 1 / 2]).1.ray.origin
      = ⟨0, 0, 999 / 1000⟩ ∧
    (scatterRay ⟨⟨⟨0, 0, 2⟩, ⟨0, 0, -1⟩⟩, ⟨1, 1, 1⟩, 9, 4⟩ ⟨1, ⟨0, 0, 1⟩, true⟩
        ⟨⟨1 / 2, 1 / 3, 1 / 4⟩, ⟨⟨5, 6, 7⟩⟩, false, true, 3 / 2⟩ [0, 0, 1 / 2]).1.color
      = V3.mk 1 1 1 * V3.mk (1 / 2) (1 / 3) (1 / 4) := by
  have hnot : ¬ refrEta (⟨1, ⟨0, 0, 1⟩, true⟩ : ShadeableIntersection)
      (⟨⟨1 / 2, 1 / 3, 1 / 4⟩, ⟨⟨5, 6, 7⟩⟩, false, true, 3 / 2⟩ : Material)
      * sinThetaI ⟨⟨⟨0, 0, 2⟩, ⟨0, 0, -1⟩⟩, ⟨1, 1, 1⟩, 9, 4⟩ ⟨1, ⟨0, 0, 1⟩, true⟩ > 1 := by
    norm_num [refrEta, sinThetaI, cosThetaI, V3.dot, Real.sqrt_zero]
  have hgt : (1 / 2 : ℝ) > schlickR ⟨⟨⟨0, 0, 2⟩, ⟨0, 0, -1⟩⟩, ⟨1, 1, 1⟩, 9, 4⟩
      ⟨1, ⟨0, 0, 1⟩, true⟩ ⟨⟨1 / 2, 1 / 3, 1 / 4⟩, ⟨⟨5, 6, 7⟩⟩, false, true, 3 / 2⟩ := by
    norm_num [schlickR, refrEta, cosThetaI, V3.dot]
  have h := (scatterRay_refractive_dispatch ⟨⟨⟨0, 0, 2⟩, ⟨0, 0, -1⟩⟩, ⟨1, 1, 1⟩, 9, 4⟩
      ⟨1, ⟨0, 0, 1⟩, true⟩ ⟨⟨1 / 2, 1 / 3, 1 / 4⟩, ⟨⟨5, 6, 7⟩⟩, false, true, 3 / 2⟩
      0 0 (1 / 2) [] rfl hnot).2.2.1 hgt
  rw [h]
  refine ⟨?_, ?_, rfl⟩
  · show dirRefr _ _ _ = _
    unfold dirRefr V3.refract refrEta
    norm_num [V3.dot]
    ext <;> norm_num [Real.sqrt_one]
  · show hitPoint _ _ - _ = _
    unfold hitPoint
    ext <;> norm_num

/-- C6: for a reflective, non-refractive material, scatterRay takes the
specular branch exactly when choice > 0.2, reflecting and scaling the
specular color by 0.8; otherwise it takes the stratified hemisphere sample
and scales the material color by 0.2. -/
theorem scatterRay_reflective_dispatch
    (ps : PathSegment) (isect : ShadeableIntersection) (m : Material)
    (u v choice : ℝ) (rest : List ℝ)
    (hrefl : m.hasReflective = true) (hrefr : m.hasRefractive = false) :
    (choice > (0.2 : ℝ) →
      scatterRay ps isect m (u :: v :: choice :: rest)
        = (⟨⟨hitPoint ps isect + (0.001 : ℝ) • isect.surfaceNormal, dirSpec ps isect⟩,
            ps.color * ((0.8 : ℝ) • m.specular.color), ps.pixelIndex, ps.remainingBounces⟩,
           isect, m, rest)) ∧
    (¬ choice > (0.2 : ℝ) →
      scatterRay ps isect m (u :: v :: choice :: rest)
        = (⟨⟨hitPoint ps isect + (0.001 : ℝ) • isect.surfaceNormal,
             shirleyDir isect.surfaceNormal u v⟩,
            ps.color * ((0.2 : ℝ) • m.color), ps.pixelIndex, ps.remainingBounces⟩,
           isect, m, rest)) := by
  constructor
  · intro h
    simp [scatterRay, shirleyRandomDirectionInHemisphere, hrefl, hrefr, h]
  · intro h
    simp [scatterRay, shirleyRandomDirectionInHemisphere, hrefl, hrefr, h]
    norm_num

/-- C6, witness: with choice = 1/2 the specular branch fires and scales the
specular color by 0.8; with choice = 1/10 the diffuse branch fires and scales
the material color by 0.2. -/
theorem scatterRay_reflective_dispatch_witness :
    (scatterRay ⟨⟨⟨0, 0, 0⟩, ⟨0, 0, -1⟩⟩, ⟨1, 1, 1⟩, 2, 6⟩ ⟨1, ⟨0, 0, 1⟩, true⟩
        ⟨⟨1, 1, 1⟩, ⟨⟨1, 1, 1⟩⟩, true, false, 1⟩ [0, 0, 1 / 2]).1.color
      = V3.mk 1 1 1 * ((0.8 : ℝ) • V3.mk 1 1 1) ∧
    (scatterRay ⟨⟨⟨0, 0, 0⟩, ⟨0, 0, -1⟩⟩, ⟨1, 1, 1⟩, 2, 6⟩ ⟨1, ⟨0, 0, 1⟩, true⟩
        ⟨⟨1, 1, 1⟩, ⟨⟨1, 1, 1⟩⟩, true, false, 1⟩ [0, 0, 1 / 10]).1.color
      = V3.mk 1 1 1 * ((0.2 : ℝ) • V3.mk 1 1 1) := by
  constructor
  · have h := (scatterRay_reflective_dispatch ⟨⟨⟨0, 0, 0⟩, ⟨0, 0, -1⟩⟩, ⟨1, 1, 1⟩, 2, 6⟩
      ⟨1, ⟨0, 0, 1⟩, true⟩ ⟨⟨1, 1, 1⟩, ⟨⟨1, 1, 1⟩⟩, true, false, 1⟩ 0 0 (1 / 2) [] rfl rfl).1
      (by norm_num)
    rw [h]
  · have h := (scatterRay_reflective_dispatch ⟨⟨⟨0, 0, 0⟩, ⟨0, 0, -1⟩⟩, ⟨1, 1, 1⟩, 2, 6⟩
      ⟨1, ⟨0, 0, 1⟩, true⟩ ⟨⟨1, 1, 1⟩, ⟨⟨1, 1, 1⟩⟩, true, false, 1⟩ 0 0 (1 / 10) [] rfl rfl).2
      (by norm_num)
    rw [h]

theorem specularBranchProbability_eq : specularBranchProbability = 0.8 := by
  unfold specularBranchProbability
  have hset : Set.Ico (0 : ℝ) 1 ∩ {c : ℝ | c > 0.2} = Set.Ioo (0.2 : ℝ) 1 := by
    ext c
    simp only [Set.mem_inter_iff, Set.mem_Ico, Set.mem_setOf_eq, Set.mem_Ioo]
    constructor
    · rintro ⟨⟨h0, h1⟩, h2⟩
      exact ⟨h2, h1⟩
    · rintro ⟨h2, h1⟩
      refine ⟨⟨by linarith, h1⟩, h2⟩
  rw [hset, Real.volume_Ioo, ENNReal.toReal_ofReal (by norm_num)]
  norm_num

theorem diffuseBranchProbability_eq : diffuseBranchProbability = 0.2 := by
  unfold diffuseBranchProbability
  have hset : Set.Ico (0 : ℝ) 1 ∩ {c : ℝ | ¬ c > 0.2} = Set.Icc (0 : ℝ) 0.2 := by
    ext c
    simp only [Set.mem_inter_iff, Set.mem_Ico, Set.mem_setOf_eq, Set.mem_Icc, not_lt]
    constructor
    · rintro ⟨⟨h0, h1⟩, h2⟩
      exact ⟨h0, h2⟩
    · rintro ⟨h0, h2⟩
      refine ⟨⟨h0, by linarith⟩, h2⟩
  rw [hset, Real.volume_Icc, ENNReal.toReal_ofReal (by norm_num)]
  norm_num

/-- C7, counterexample: at choice = 1/2 the specular branch is taken; that
branch is chosen with probability 0.8 and the color is scaled by 4/5 = 0.8,
which is not the complement 1 - 0.8 of the branch probability. -/
theorem reflective_factor_not_complement :
    specularBranchProbability = 0.8 ∧
    (scatterRay ⟨⟨⟨0, 0, 0⟩, ⟨0, 0, -1⟩⟩, ⟨1, 1, 1⟩, 0, 0⟩ ⟨1, ⟨0, 0, 1⟩, true⟩
        ⟨⟨1, 1, 1⟩, ⟨⟨1, 1, 1⟩⟩, true, false, 1⟩ [0, 0, 1 / 2]).1.color
      = ⟨4 / 5, 4 / 5, 4 / 5⟩ ∧
    (4 / 5 : ℝ) ≠ 1 - specularBranchProbability := by
  have h12 : ((1 : ℝ) / 2) > 0.2 := by norm_num
  refine ⟨specularBranchProbability_eq, ?_, ?_⟩
  · simp [scatterRay, shirleyRandomDirectionInHemisphere, h12]
    ext <;> norm_num
  · rw [specularBranchProbability_eq]
    norm_num

/-- C7 (amended): in the reflective, non-refractive dispatch the scalar color
factor on each branch equals the probability of that branch itself (0.8 on
the specular branch taken with probability 0.8, 0.2 on the diffuse branch
taken with probability 0.2), not its complement. -/
theorem scatterRay_factor_eq_branch_probability
    (ps : PathSegment) (isect : ShadeableIntersection) (m : Material)
    (u v choice : ℝ) (rest : List ℝ)
    (hrefl : m.hasReflective = true) (hrefr : m.hasRefractive = false) :
    specularBranchProbability = 0.8 ∧ diffuseBranchProbability = 0.2 ∧
    (choice > (0.2 : ℝ) →
      (scatterRay ps isect m (u :: v :: choice :: rest)).1.color
        = ps.color * (specularBranchProbability • m.specular.color)) ∧
    (¬ choice > (0.2 : ℝ) →
      (scatterRay ps isect m (u :: v :: choice :: rest)).1.color
        = ps.color * (diffuseBranchProbability • m.color)) := by
  refine ⟨specularBranchProbability_eq, diffuseBranchProbability_eq, ?_, ?_⟩
  · intro h
    rw [specularBranchProbability_eq]
    simp [scatterRay, shirleyRandomDirectionInHemisphere, hrefl, hrefr, h]
  · intro h
    rw [diffuseBranchProbability_eq]
    simp [scatterRay, shirleyRandomDirectionInHemisphere, hrefl, hrefr, h]
    norm_num

/-- C7, witness: concrete instances of the factor-equals-probability relation
on both branches. -/
theorem scatterRay_factor_eq_branch_probability_witness :
    (scatterRay ⟨⟨⟨0, 0, 0⟩, ⟨0, 0, -1⟩⟩, ⟨2, 2, 2⟩, 1, 1⟩ ⟨1, ⟨0, 0, 1⟩, true⟩
        ⟨⟨1, 1, 1⟩, ⟨⟨1, 1, 1⟩⟩, true, false, 1⟩ [0, 0, 3 / 10]).1.color
      = V3.mk 2 2 2 * (specularBranchProbability • V3.mk 1 1 1) ∧
    (scatterRay ⟨⟨⟨0, 0, 0⟩, ⟨0, 0, -1⟩⟩, ⟨2, 2, 2⟩, 1, 1⟩ ⟨1, ⟨0, 0, 1⟩, true⟩
        ⟨⟨1, 1, 1⟩, ⟨⟨1, 1, 1⟩⟩, true, false, 1⟩ [0, 0, 1 / 10]).1.color
      = V3.mk 2 2 2 * (diffuseBranchProbability • V3.mk 1 1 1) :=
  ⟨(scatterRay_factor_eq_branch_probability ⟨⟨⟨0, 0, 0⟩, ⟨0, 0, -1⟩⟩, ⟨2, 2, 2⟩, 1, 1⟩
      ⟨1, ⟨0, 0, 1⟩, true⟩ ⟨⟨1, 1, 1⟩, ⟨⟨1, 1, 1⟩⟩, true, false, 1⟩ 0 0 (3 / 10) [] rfl
      rfl).2.2.1 (by norm_num),
   (scatterRay_factor_eq_branch_probability ⟨⟨⟨0, 0, 0⟩, ⟨0, 0, -1⟩⟩, ⟨2, 2, 2⟩, 1, 1⟩
      ⟨1, ⟨0, 0, 1⟩, true⟩ ⟨⟨1, 1, 1⟩, ⟨⟨1, 1, 1⟩⟩, true, false, 1⟩ 0 0 (1 / 10) [] rfl
      rfl).2.2.2 (by norm_num)⟩

/-- C8: for a pure-diffuse material with color (1/2,1/2,1/2), scatterRay
multiplies the path color componentwise by (1/2,1/2,1/2), sets the new origin
to hitPoint + 0.001 * normal with hitPoint = origin + t * direction, and sets
the direction to the stratified cosine-weighted hemisphere sample of the two
drawn uniforms. -/
theorem scatterRay_pure_diffuse
    (ps : PathSegment) (isect : ShadeableIntersection) (m : Material)
    (u v choice : ℝ) (rest : List ℝ)
    (hrefl : m.hasReflective = false) (hrefr : m.hasRefractive = false)
    (hcol : m.color = ⟨1 / 2, 1 / 2, 1 / 2⟩) :
    scatterRay ps isect m (u :: v :: choice :: rest)
      = (⟨⟨hitPoint ps isect + (0.001 : ℝ) • isect.surfaceNormal,
           shirleyDir isect.surfaceNormal u v⟩,
          ps.color * V3.mk (1 / 2) (1 / 2) (1 / 2), ps.pixelIndex, ps.remainingBounces⟩,
         isect, m, rest) ∧
    hitPoint ps isect = ps.ray.origin + isect.t • ps.ray.direction := by
  have hone : ∀ a : V3, (1 : ℝ) • a = a := fun a => by ext <;> simp
  constructor
  · simp [scatterRay, shirleyRandomDirectionInHemisphere, hrefl, hrefr, hcol, hone]
  · rfl

/-- C8, witness: a concrete pure-diffuse scatter halves each color channel and
offsets the origin to (0,0,1.001). -/
theorem scatterRay_pure_diffuse_witness :
    (scatterRay ⟨⟨⟨0, 0, 2⟩, ⟨0, 0, -1⟩⟩, ⟨1, 1, 1⟩, 5, 2⟩ ⟨1, ⟨0, 0, 1⟩, true⟩
        ⟨⟨1 / 2, 1 / 2, 1 / 2⟩, ⟨⟨0, 0, 0⟩⟩, false, false, 1⟩ [1 / 3, 2 / 3, 0]).1.color
      = ⟨1 / 2, 1 / 2, 1 / 2⟩ ∧
    (scatterRay ⟨⟨⟨0, 0, 2⟩, ⟨0, 0, -1⟩⟩, ⟨1, 1, 1⟩, 5, 2⟩ ⟨1, ⟨0, 0, 1⟩, true⟩
        ⟨⟨1 / 2, 1 / 2, 1 / 2⟩, ⟨⟨0, 0, 0⟩⟩, false, false, 1⟩ [1 / 3, 2 / 3, 0]).1.ray.origin
      = ⟨0, 0, 1001 / 1000⟩ := by
  have h := (scatterRay_pure_diffuse ⟨⟨⟨0, 0, 2⟩, ⟨0, 0, -1⟩⟩, ⟨1, 1, 1⟩, 5, 2⟩
      ⟨1, ⟨0, 0, 1⟩, true⟩ ⟨⟨1 / 2, 1 / 2, 1 / 2⟩, ⟨⟨0, 0, 0⟩⟩, false, false, 1⟩
      (1 / 3) (2 / 3) 0 [] rfl rfl rfl).1
  rw [h]
  constructor
  · ext <;> norm_num
  · show hitPoint _ _ + _ = _
    unfold hitPoint
    ext <;> norm_num

/-- C9: scatterRay leaves the intersection record, the material record, and
the bookkeeping fields of the path segment (pixel index, remaining bounces)
unchanged; only the ray and the color are written. -/
theorem scatterRay_frame (ps : PathSegment) (isect : ShadeableIntersection)
    (m : Material) (rng : List ℝ) :
    (scatterRay ps isect m rng).2.1 = isect ∧
    (scatterRay ps isect m rng).2.2.1 = m ∧
    (scatterRay ps isect m rng).1.pixelIndex = ps.pixelIndex ∧
    (scatterRay ps isect m rng).1.remainingBounces = ps.remainingBounces := by
  unfold scatterRay
  split_ifs <;> simp
  all_goals (split_ifs <;> simp)

/-- C10: scatterRay consumes exactly three uniform draws in a fixed order,
whatever the material flags: the stream left over is exactly the tail after
the first three entries, the result depends only on those three, and the
stratified hemisphere sampler itself consumes exactly the first two. -/
theorem scatterRay_consumes_three_draws (ps : PathSegment)
    (isect : ShadeableIntersection) (m : Material) (n : V3)
    (u v c : ℝ) (rest : List ℝ) :
    (scatterRay ps isect m (u :: v :: c :: rest)).2.2.2 = rest ∧
    (scatterRay ps isect m (u :: v :: c :: rest)).1
      = (scatterRay ps isect m [u, v, c]).1 ∧
    shirleyRandomDirectionInHemisphere n (u :: v :: c :: rest)
      = ((shirleyRandomDirectionInHemisphere n [u, v]).1, c :: rest) := by
  refine ⟨?_, ?_, rfl⟩
  · unfold scatterRay
    split_ifs <;> simp [shirleyRandomDirectionInHemisphere]
    all_goals (split_ifs <;> simp)
  · unfold scatterRay
    split_ifs <;> simp [shirleyRandomDirectionInHemisphere]
    all_goals (split_ifs <;> simp)
